import Mathlib

/-!
Shallow embedding of the EC2 Capacity Blocks pricing scraper
(src/parser.py, src/scraper.py, src/models.py) and proofs about it.

Modelling conventions, used throughout:
* Python strings are modelled as `List Char` (abbreviated `Str`), so that
  all definitions are structurally computable and witnesses evaluate by
  kernel reduction.
* Python `float` values arising here (prices parsed from short decimal
  numerals) are modelled as exact rationals `ℚ`; the only operations the
  code performs on them are construction from a decimal numeral and an
  equality test against `0.0`, both of which agree with the rational
  model on every numeral the price regexes can produce within double
  range.
* A Python function that can raise an uncaught exception is modelled as
  returning `Option`, with `none` standing for the raised exception; a
  caught exception (for example `json.JSONDecodeError` inside a
  `try`/`except` block) is modelled by the handler's behaviour, not by
  `none`.
-/

abbrev Str := List Char

/-- Characters of a Lean string literal, used to write `Str` constants. -/
def chars (s : String) : Str := s.data

/-- Boolean test that `p` is a prefix of `s` (Python `str.startswith`). -/
def lstartsWith : Str → Str → Bool
  | [], _ => true
  | _ :: _, [] => false
  | p :: ps, c :: cs => p == c && lstartsWith ps cs

/-- Index of the first occurrence of `pat` in `s`, if any. -/
def firstMatchPos (pat : Str) : Str → Option Nat
  | [] => if lstartsWith pat [] then some 0 else none
  | c :: cs =>
    if lstartsWith pat (c :: cs) then some 0
    else (firstMatchPos pat cs).map Nat.succ

/-- Python substring test `pat in s`. -/
def strContains (s pat : Str) : Bool := (firstMatchPos pat s).isSome

/-- Fold a digit list into the natural number it denotes. -/
def natOfDigits (cs : Str) : Nat :=
  cs.foldl (fun acc c => acc * 10 + (c.toNat - 48)) 0

/-- The set of characters stripped by Python `str.strip()` and matched by
`\s` in a `str` regular expression (Unicode whitespace). -/
def pyIsSpace (c : Char) : Bool :=
  let n := c.toNat
  (9 ≤ n && n ≤ 13) || n == 32 || (28 ≤ n && n ≤ 31) || n == 0x85 ||
  n == 0xa0 || n == 0x1680 || (0x2000 ≤ n && n ≤ 0x200a) || n == 0x2028 ||
  n == 0x2029 || n == 0x202f || n == 0x205f || n == 0x3000

/-- Python `str.strip()`. -/
def pyStrip (s : Str) : Str :=
  ((s.dropWhile pyIsSpace).reverse.dropWhile pyIsSpace).reverse

/-- JSON values as decoded by Python `json.loads`.  Numbers are modelled
as exact rationals (see the header note on floats); object fields are
kept in insertion order with unique keys, as a Python `dict` does. -/
inductive JsonValue where
  | null : JsonValue
  | bool (b : Bool) : JsonValue
  | num (q : ℚ) : JsonValue
  | str (s : Str) : JsonValue
  | arr (elems : List JsonValue) : JsonValue
  | obj (fields : List (Str × JsonValue)) : JsonValue

/-- Lookup in an association list with `Str` keys (first match). -/
def assocLookup {β : Type} : List (Str × β) → Str → Option β
  | [], _ => none
  | (k, v) :: rest, key => if k = key then some v else assocLookup rest key

/-- Insert into an association list the way a Python `dict` does: an
existing key keeps its position and gets the new value, a new key is
appended at the end. -/
def dictInsert (fs : List (Str × JsonValue)) (k : Str) (v : JsonValue) :
    List (Str × JsonValue) :=
  match fs with
  | [] => [(k, v)]
  | (k0, v0) :: rest =>
    if k0 = k then (k0, v) :: rest else (k0, v0) :: dictInsert rest k v

/-- JSON inter-token whitespace accepted by `json.loads`. -/
def jsonSkipWs (s : Str) : Str :=
  s.dropWhile (fun c => c == ' ' || c == '\t' || c == '\n' || c == '\r')

/-- Value of one hexadecimal digit. -/
def hexVal (c : Char) : Option Nat :=
  if c.isDigit then some (c.toNat - 48)
  else if 'a' ≤ c && c ≤ 'f' then some (c.toNat - 87)
  else if 'A' ≤ c && c ≤ 'F' then some (c.toNat - 55)
  else none

/-- Four hexadecimal digits, as in a JSON `\uXXXX` escape. -/
def hex4 : Str → Option (Nat × Str)
  | a :: b :: c :: d :: rest => do
    let va ← hexVal a
    let vb ← hexVal b
    let vc ← hexVal c
    let vd ← hexVal d
    some (((va * 16 + vb) * 16 + vc) * 16 + vd, rest)
  | _ => none

/-- Body of a JSON string literal, after the opening quote.  Escapes are
decoded as `json.loads` does; an unescaped control character, a bad
escape or a missing closing quote is a decode error.  A lone surrogate
`\uXXXX` (which Python turns into a lone-surrogate `str` element, not
representable as a `Char`) is mapped to U+FFFD; no input in this
development contains one. -/
def pChars : Nat → Str → Str → Option (Str × Str)
  | 0, _, _ => none
  | fuel + 1, s, acc =>
    match s with
    | [] => none
    | '"' :: rest => some (acc.reverse, rest)
    | '\\' :: rest =>
      match rest with
      | '"' :: r => pChars fuel r ('"' :: acc)
      | '\\' :: r => pChars fuel r ('\\' :: acc)
      | '/' :: r => pChars fuel r ('/' :: acc)
      | 'b' :: r => pChars fuel r ('\x08' :: acc)
      | 'f' :: r => pChars fuel r ('\x0c' :: acc)
      | 'n' :: r => pChars fuel r ('\n' :: acc)
      | 'r' :: r => pChars fuel r ('\r' :: acc)
      | 't' :: r => pChars fuel r ('\t' :: acc)
      | 'u' :: r =>
        match hex4 r with
        | none => none
        | some (n, r2) =>
          if 0xd800 ≤ n && n ≤ 0xdbff then
            match r2 with
            | '\\' :: 'u' :: r3 =>
              match hex4 r3 with
              | some (m, r4) =>
                if 0xdc00 ≤ m && m ≤ 0xdfff then
                  pChars fuel r4
                    (Char.ofNat (0x10000 + (n - 0xd800) * 0x400 + (m - 0xdc00)) :: acc)
                else pChars fuel ('\\' :: 'u' :: r3) ('�' :: acc)
              | none => pChars fuel ('\\' :: 'u' :: r3) ('�' :: acc)
            | _ => pChars fuel r2 ('�' :: acc)
          else if 0xdc00 ≤ n && n ≤ 0xdfff then pChars fuel r2 ('�' :: acc)
          else pChars fuel r2 (Char.ofNat n :: acc)
      | _ => none
    | c :: rest =>
      if c.toNat < 32 then none else pChars fuel rest (c :: acc)

/-- A JSON number after the optional minus sign: integer part,
optional fraction, optional exponent, with the strict grammar
`json.loads` uses (`0` or a nonzero-led digit run; a fraction or an
exponent needs at least one digit or it is simply not consumed, which
then surfaces as a decode error at the enclosing token). -/
def pNumBody (s : Str) : Option (ℚ × Str) :=
  let ipart := s.takeWhile Char.isDigit
  let rest := s.dropWhile Char.isDigit
  if ipart.isEmpty then none
  else if 1 < ipart.length && ipart.headD '0' == '0' then none
  else
    let intq : ℚ := (natOfDigits ipart : ℚ)
    let (q1, r1) :=
      match rest with
      | '.' :: r =>
        let fpart := r.takeWhile Char.isDigit
        if fpart.isEmpty then (intq, rest)
        else (intq + (natOfDigits fpart : ℚ) / (10 : ℚ) ^ fpart.length,
              r.dropWhile Char.isDigit)
      | _ => (intq, rest)
    match r1 with
    | e :: r2 =>
      if e == 'e' || e == 'E' then
        let (eneg, r3) :=
          match r2 with
          | '-' :: r => (true, r)
          | '+' :: r => (false, r)
          | _ => (false, r2)
        let epart := r3.takeWhile Char.isDigit
        if epart.isEmpty then some (q1, r1)
        else
          let ev := natOfDigits epart
          some (if eneg then q1 / (10 : ℚ) ^ ev else q1 * (10 : ℚ) ^ ev,
                r3.dropWhile Char.isDigit)
      else some (q1, r1)
    | [] => some (q1, r1)

/-- A JSON number token.  `NaN`, `Infinity` and `-Infinity`, which
`json.loads` accepts as IEEE special values, have no rational model and
are treated as a decode error; no input in this development contains
them. -/
def pNumber (s : Str) : Option (JsonValue × Str) :=
  match s with
  | '-' :: r => (pNumBody r).map (fun p => (JsonValue.num (-p.1), p.2))
  | _ => (pNumBody s).map (fun p => (JsonValue.num p.1, p.2))

mutual

/-- One JSON value, expecting the input to start at its first token
(leading whitespace already skipped). -/
def pValue : Nat → Str → Option (JsonValue × Str)
  | 0, _ => none
  | fuel + 1, s =>
    match s with
    | '\x7b' :: rest => pObject fuel true (jsonSkipWs rest) []
    | '[' :: rest => pArray fuel (jsonSkipWs rest)
    | '"' :: rest => (pChars (rest.length + 1) rest []).map
        (fun p => (JsonValue.str p.1, p.2))
    | 't' :: rest =>
      if lstartsWith (chars "rue") rest then some (.bool true, rest.drop 3)
      else none
    | 'f' :: rest =>
      if lstartsWith (chars "alse") rest then some (.bool false, rest.drop 4)
      else none
    | 'n' :: rest =>
      if lstartsWith (chars "ull") rest then some (.null, rest.drop 3)
      else none
    | _ => pNumber s

/-- Members of a JSON object, positioned after `\x7b` (whitespace
skipped).  `allowEmpty` is true only at the first member position, so
`,\x7d` is rejected just as `json.loads` rejects it.  Duplicate keys
follow `dict` semantics via `dictInsert` (last value wins, first
position kept). -/
def pObject : Nat → Bool → Str → List (Str × JsonValue) →
    Option (JsonValue × Str)
  | 0, _, _, _ => none
  | fuel + 1, allowEmpty, s, acc =>
    match s with
    | '\x7d' :: rest => if allowEmpty then some (.obj acc, rest) else none
    | '"' :: rest =>
      match pChars (rest.length + 1) rest [] with
      | none => none
      | some (key, r1) =>
        match jsonSkipWs r1 with
        | ':' :: r2 =>
          match pValue fuel (jsonSkipWs r2) with
          | none => none
          | some (v, r3) =>
            let acc2 := dictInsert acc key v
            match jsonSkipWs r3 with
            | ',' :: r4 => pObject fuel false (jsonSkipWs r4) acc2
            | '\x7d' :: r4 => some (.obj acc2, r4)
            | _ => none
        | _ => none
    | _ => none

/-- Elements of a JSON array, positioned after `[` (whitespace
skipped). -/
def pArray : Nat → Str → Option (JsonValue × Str)
  | 0, _ => none
  | fuel + 1, s =>
    match s with
    | ']' :: rest => some (.arr [], rest)
    | _ => pElems fuel s []

/-- Remaining elements of a nonempty JSON array. -/
def pElems : Nat → Str → List JsonValue → Option (JsonValue × Str)
  | 0, _, _ => none
  | fuel + 1, s, acc =>
    match pValue fuel s with
    | none => none
    | some (v, r1) =>
      match jsonSkipWs r1 with
      | ',' :: r2 => pElems fuel (jsonSkipWs r2) (v :: acc)
      | ']' :: r2 => some (.arr (v :: acc).reverse, r2)
      | _ => none

end

/-- Python `json.loads` on a `str` input: one value surrounded only by
whitespace, else a `json.JSONDecodeError`. -/
def jsonParse (s : Str) : Option JsonValue :=
  match pValue (s.length + 8) (jsonSkipWs s) with
  | none => none
  | some (v, rest) => if jsonSkipWs rest = [] then some v else none

/-- Named HTML entities decoded by the cleaner.  `html.unescape` in the
source resolves the full HTML5 entity table (and some semicolon-free
forms); this model covers the basic entities.  Every string the claims
feed through the cleaner is entity-free, so the difference is never
exercised in this development. -/
def namedEntity (name : Str) : Option Char :=
  if name = chars "amp" then some '&'
  else if name = chars "lt" then some '<'
  else if name = chars "gt" then some '>'
  else if name = chars "quot" then some '"'
  else if name = chars "apos" then some '\x27'
  else if name = chars "nbsp" then some '\xa0'
  else none

/-- Decode one entity after a `&`, returning the character and what
follows the closing `;`. -/
def decodeEntity (s : Str) : Option (Char × Str) :=
  match s with
  | '#' :: rest =>
    match rest with
    | 'x' :: r2 =>
      let ds := r2.takeWhile (fun c => (hexVal c).isSome)
      let r3 := r2.dropWhile (fun c => (hexVal c).isSome)
      match r3 with
      | ';' :: r4 =>
        if ds.isEmpty then none
        else
          let n := ds.foldl (fun acc c => acc * 16 + ((hexVal c).getD 0)) 0
          some (Char.ofNat n, r4)
      | _ => none
    | _ =>
      let ds := rest.takeWhile Char.isDigit
      let r3 := rest.dropWhile Char.isDigit
      match r3 with
      | ';' :: r4 =>
        if ds.isEmpty then none else some (Char.ofNat (natOfDigits ds), r4)
      | _ => none
  | _ =>
    let name := s.takeWhile Char.isAlpha
    let r2 := s.dropWhile Char.isAlpha
    match r2 with
    | ';' :: r3 => (namedEntity name).map (fun c => (c, r3))
    | _ => none

/-- Entity decoding pass of the cleaner (`html.unescape`).  An
unrecognized sequence is left untouched. -/
def unescapeEntities : Nat → Str → Str
  | 0, s => s
  | fuel + 1, s =>
    match s with
    | [] => []
    | '&' :: rest =>
      match decodeEntity rest with
      | some (c, r) => c :: unescapeEntities fuel r
      | none => '&' :: unescapeEntities fuel rest
    | c :: rest => c :: unescapeEntities fuel rest

/-- Markup-stripping pass of the cleaner.  `BeautifulSoup(...,
"html.parser").get_text()` concatenates the text nodes; this model drops
every span from `<` to the next `>` (a dangling `<` swallows the rest),
which agrees with the library on the simple markup the source page
carries and exactly on markup-free text, the only inputs the claims
exercise. -/
def stripTagsF : Nat → Bool → Str → Str
  | 0, _, _ => []
  | _ + 1, false, [] => []
  | fuel + 1, false, '<' :: r => stripTagsF fuel true r
  | fuel + 1, false, c :: r => c :: stripTagsF fuel false r
  | _ + 1, true, [] => []
  | fuel + 1, true, '>' :: r => stripTagsF fuel false r
  | fuel + 1, true, _ :: r => stripTagsF fuel true r

/-- `clean_html` of src/parser.py on a (truthy) string: decode
entities, strip markup, trim. -/
def cleanHtmlStr (s : Str) : Str :=
  let u := unescapeEntities (s.length + 1) s
  pyStrip (stripTagsF (u.length + 1) false u)

/-- Python truthiness for decoded JSON values. -/
def pyTruthy : JsonValue → Bool
  | .null => false
  | .bool b => b
  | .num q => q != 0
  | .str s => !s.isEmpty
  | .arr l => !l.isEmpty
  | .obj l => !l.isEmpty

/-- Python hashability for decoded JSON values (lists and dicts raise
`TypeError` when used as dict keys or looked up). -/
def pyHashable : JsonValue → Bool
  | .arr _ => false
  | .obj _ => false
  | _ => true

/-- Python `==` on the hashable JSON values (`True == 1`, `False == 0`;
values of different kinds otherwise compare unequal). -/
def pyEq : JsonValue → JsonValue → Bool
  | .null, .null => true
  | .bool a, .bool b => a == b
  | .bool a, .num q => (if a then (1 : ℚ) else 0) == q
  | .num q, .bool a => q == (if a then (1 : ℚ) else 0)
  | .num p, .num q => p == q
  | .str s, .str t => s == t
  | _, _ => false

/-- `clean_html` of src/parser.py applied to an arbitrary decoded JSON
value: a falsy value returns the empty string, a truthy non-string
raises `TypeError` inside `html.unescape`. -/
def clean_html (v : JsonValue) : Option Str :=
  if pyTruthy v = false then some []
  else
    match v with
    | .str s => some (cleanHtmlStr s)
    | _ => none

/-- Digits and thousands-separator commas, the character class
`[\d,]` of the price regexes. -/
def isDigitComma (c : Char) : Bool := c.isDigit || c == ','

/-- The amount group `[\d,]+\.?\d*` of the price regexes, matched at the
current position.  The regex alternatives a backtracking engine would
try beyond this greedy parse cannot lead to a match for these two
patterns (every shorter choice of `[\d,]+`, `\.?` or `\d*` leaves the
continuation `\s*USD...` facing a digit, a comma or a dot), so the
greedy parse is the exact match semantics of Python `re` here. -/
def matchGroupG (s : Str) : Option (Str × Str) :=
  let run := s.takeWhile isDigitComma
  let rest := s.dropWhile isDigitComma
  if run.isEmpty then none
  else
    match rest with
    | '.' :: r2 =>
      some (run ++ '.' :: r2.takeWhile Char.isDigit, r2.dropWhile Char.isDigit)
    | _ => some (run, rest)

/-- Literal token of a regex pattern. -/
def matchLit (lit s : Str) : Option Str :=
  if lstartsWith lit s then some (s.drop lit.length) else none

/-- The optional `\$?` of the price regexes. -/
def dropDollar : Str → Str
  | '$' :: r => r
  | s => s

/-- Whole-pattern attempt of `\$?([\d,]+\.?\d*)\s*USD` at one position,
returning the captured group. -/
def matchSingleAt (s : Str) : Option Str := do
  let (g, r1) ← matchGroupG (dropDollar s)
  let _ ← matchLit (chars "USD") (r1.dropWhile pyIsSpace)
  some g

/-- Whole-pattern attempt of
`\$?([\d,]+\.?\d*)\s*USD\s*\(\$?([\d,]+\.?\d*)\s*USD\)` at one
position, returning the two captured groups. -/
def matchDualAt (s : Str) : Option (Str × Str) := do
  let (g1, r1) ← matchGroupG (dropDollar s)
  let r2 ← matchLit (chars "USD") (r1.dropWhile pyIsSpace)
  let r3 ← matchLit (chars "(") (r2.dropWhile pyIsSpace)
  let (g2, r4) ← matchGroupG (dropDollar r3)
  let _ ← matchLit (chars "USD)") (r4.dropWhile pyIsSpace)
  some (g1, g2)

/-- `re.search`: try the pattern at each position, leftmost match
wins. -/
def searchFrom {α : Type} (f : Str → Option α) : Str → Option α
  | [] => f []
  | c :: rest =>
    match f (c :: rest) with
    | some r => some r
    | none => searchFrom f rest

/-- Python `float` applied to a captured amount group after
`.replace(",", "")`: the group consists of digits, commas and at most
one dot, so conversion succeeds exactly when at least one digit is
present (`float("")` and `float(".")` raise `ValueError`). -/
def parseAmount (g : Str) : Option ℚ :=
  let g2 := g.filter (fun c => c != ',')
  if g2.any Char.isDigit then
    let ip := g2.takeWhile (fun c => c != '.')
    let fp := (g2.dropWhile (fun c => c != '.')).drop 1
    some ((natOfDigits ip : ℚ) + (natOfDigits fp : ℚ) / (10 : ℚ) ^ fp.length)
  else none

/-- `parse_price_string` of src/parser.py.  `none` models the uncaught
`ValueError` from `float` on an all-comma amount group. -/
def parse_price_string (s : Str) : Option (ℚ × ℚ) :=
  match searchFrom matchDualAt (cleanHtmlStr s) with
  | some (g1, g2) => do
    let hourly ← parseAmount g1
    let perAcc ← parseAmount g2
    some (hourly, perAcc)
  | none =>
    match searchFrom matchSingleAt (cleanHtmlStr s) with
    | some g => do
      let hourly ← parseAmount g
      some (hourly, (0 : ℚ))
    | none => some ((0 : ℚ), (0 : ℚ))

/-- `REGION_NAME_TO_CODE` of src/parser.py. -/
def REGION_NAME_TO_CODE : List (Str × Str) := [
  (chars "US East (N. Virginia)", chars "us-east-1"),
  (chars "US East (Ohio)", chars "us-east-2"),
  (chars "US West (N. California)", chars "us-west-1"),
  (chars "US West (Oregon)", chars "us-west-2"),
  (chars "Africa (Cape Town)", chars "af-south-1"),
  (chars "Asia Pacific (Hong Kong)", chars "ap-east-1"),
  (chars "Asia Pacific (Hyderabad)", chars "ap-south-2"),
  (chars "Asia Pacific (Jakarta)", chars "ap-southeast-3"),
  (chars "Asia Pacific (Melbourne)", chars "ap-southeast-4"),
  (chars "Asia Pacific (Mumbai)", chars "ap-south-1"),
  (chars "Asia Pacific (Osaka)", chars "ap-northeast-3"),
  (chars "Asia Pacific (Seoul)", chars "ap-northeast-2"),
  (chars "Asia Pacific (Singapore)", chars "ap-southeast-1"),
  (chars "Asia Pacific (Sydney)", chars "ap-southeast-2"),
  (chars "Asia Pacific (Tokyo)", chars "ap-northeast-1"),
  (chars "Canada (Central)", chars "ca-central-1"),
  (chars "Canada West (Calgary)", chars "ca-west-1"),
  (chars "Europe (Frankfurt)", chars "eu-central-1"),
  (chars "Europe (Ireland)", chars "eu-west-1"),
  (chars "Europe (London)", chars "eu-west-2"),
  (chars "Europe (Milan)", chars "eu-south-1"),
  (chars "Europe (Paris)", chars "eu-west-3"),
  (chars "Europe (Spain)", chars "eu-south-2"),
  (chars "Europe (Stockholm)", chars "eu-north-1"),
  (chars "Europe (Zurich)", chars "eu-central-2"),
  (chars "Israel (Tel Aviv)", chars "il-central-1"),
  (chars "Middle East (Bahrain)", chars "me-south-1"),
  (chars "Middle East (UAE)", chars "me-central-1"),
  (chars "South America (São Paulo)", chars "sa-east-1"),
  (chars "South America (Sao Paulo)", chars "sa-east-1"),
  (chars "Australia (Sydney)", chars "ap-southeast-2"),
  (chars "Australia (Melbourne)", chars "ap-southeast-4"),
  (chars "US West (Dallas Local Zone)", chars "us-west-2-dal-1a"),
  (chars "Dallas Local Zone\n(US East N. Virginia)", chars "us-east-1-dfw-2a")]

/-- One value of the `INSTANCE_TYPE_INFO` table. -/
structure InstanceInfo where
  family : Str
  accelerator : Str
  count : Nat
deriving DecidableEq

/-- `INSTANCE_TYPE_INFO` of src/parser.py. -/
def INSTANCE_TYPE_INFO : List (Str × InstanceInfo) := [
  (chars "u-p6e-gb200x72", ⟨chars "P6e", chars "GB200", 72⟩),
  (chars "u-p6e-gb200x36", ⟨chars "P6e", chars "GB200", 36⟩),
  (chars "p6-b300.48xlarge", ⟨chars "P6-B300", chars "B300", 8⟩),
  (chars "p6-b200.48xlarge", ⟨chars "P6-B200", chars "B200", 8⟩),
  (chars "p5.48xlarge", ⟨chars "P5", chars "H100", 8⟩),
  (chars "p5.4xlarge", ⟨chars "P5", chars "H100", 1⟩),
  (chars "p5e.48xlarge", ⟨chars "P5e", chars "H200", 8⟩),
  (chars "p5en.48xlarge", ⟨chars "P5en", chars "H200", 8⟩),
  (chars "p4d.24xlarge", ⟨chars "P4d", chars "A100", 8⟩),
  (chars "p4de.24xlarge", ⟨chars "P4de", chars "A100", 8⟩),
  (chars "trn1.32xlarge", ⟨chars "Trn1", chars "Trainium", 16⟩),
  (chars "trn2.3xlarge", ⟨chars "Trn2", chars "Trainium2", 1⟩),
  (chars "trn2.48xlarge", ⟨chars "Trn2", chars "Trainium2", 16⟩)]

/-- `_infer_instance_info` of src/parser.py. -/
def _infer_instance_info (it : Str) : Str × Str × Nat :=
  if lstartsWith (chars "p5en") it then (chars "P5en", chars "H200", 8)
  else if lstartsWith (chars "p5e") it then (chars "P5e", chars "H200", 8)
  else if lstartsWith (chars "p5") it then
    (chars "P5", chars "H100", if strContains it (chars "48xlarge") then 8 else 1)
  else if lstartsWith (chars "p6-b300") it then (chars "P6-B300", chars "B300", 8)
  else if lstartsWith (chars "p6-b200") it then (chars "P6-B200", chars "B200", 8)
  else if lstartsWith (chars "u-p6e") it then
    (if strContains it (chars "x72") then (chars "P6e", chars "GB200", 72)
     else if strContains it (chars "x36") then (chars "P6e", chars "GB200", 36)
     else (chars "P6e", chars "GB200", 0))
  else if lstartsWith (chars "p4de") it then (chars "P4de", chars "A100", 8)
  else if lstartsWith (chars "p4d") it then (chars "P4d", chars "A100", 8)
  else if lstartsWith (chars "trn2") it then
    (chars "Trn2", chars "Trainium2",
     if strContains it (chars "48xlarge") then 16 else 1)
  else if lstartsWith (chars "trn1") it then (chars "Trn1", chars "Trainium", 16)
  else (chars "Unknown", chars "Unknown", 0)

/-- The combined metadata resolution in `parse_pricing_data`
(src/parser.py lines 210 to 216): exact table lookup, re-dispatching to
`_infer_instance_info` when the resulting family is "Unknown". -/
def resolveInstanceInfo (s : Str) : Str × Str × Nat :=
  match assocLookup INSTANCE_TYPE_INFO s with
  | some i =>
    if i.family = chars "Unknown" then _infer_instance_info s
    else (i.family, i.accelerator, i.count)
  | none => _infer_instance_info s

/-- The region-code resolution in `parse_pricing_data` (src/parser.py
lines 192 to 195): exact lookup, retry on the stripped name, sentinel
"unknown". -/
def resolveRegionCode (region : Str) : Str :=
  let c1 := (assocLookup REGION_NAME_TO_CODE region).getD []
  if c1 = [] then (assocLookup REGION_NAME_TO_CODE (pyStrip region)).getD (chars "unknown")
  else c1

/-- Python `v.get(key, default)` for a decoded JSON value: `none` models
the `AttributeError` raised when `v` is not a dict. -/
def pyGetD (v : JsonValue) (key : Str) (dflt : JsonValue) : Option JsonValue :=
  match v with
  | .obj fs => some ((assocLookup fs key).getD dflt)
  | _ => none

/-- Python `dict[key]` access: `none` models the `KeyError` on a
missing key (callers must already have checked the value is a dict). -/
def pyIndex (fs : List (Str × JsonValue)) (key : Str) : Option JsonValue :=
  assocLookup fs key

/-- Python `for x in v` over a decoded JSON value: lists yield their
elements, dicts their keys, strings their one-character substrings;
iterating anything else raises `TypeError` (`none`). -/
def pyIter : JsonValue → Option (List JsonValue)
  | .arr xs => some xs
  | .obj fs => some (fs.map (fun p => .str p.1))
  | .str s => some (s.map (fun c => .str [c]))
  | _ => none

/-- Membership with a Python-dict key equality, used for the
`row_labels` dict whose keys are arbitrary hashable decoded values. -/
def pyDictLookup (fs : List (JsonValue × JsonValue)) (k : JsonValue) :
    Option JsonValue :=
  match fs with
  | [] => none
  | (k0, v0) :: rest => if pyEq k0 k then some v0 else pyDictLookup rest k

/-- Insertion with Python-dict semantics for `JsonValue` keys. -/
def pyDictInsert (fs : List (JsonValue × JsonValue)) (k v : JsonValue) :
    List (JsonValue × JsonValue) :=
  match fs with
  | [] => [(k, v)]
  | (k0, v0) :: rest =>
    if pyEq k0 k then (k0, v) :: rest else (k0, v0) :: pyDictInsert rest k v

/-- Python `needle in hay` for a string needle against a decoded JSON
value: substring test on strings, element membership on lists, key
membership on dicts, `TypeError` (`none`) otherwise. -/
def pyContains (needle : Str) : JsonValue → Option Bool
  | .str s => some (strContains s needle)
  | .arr xs => some (xs.any (fun x => pyEq x (.str needle)))
  | .obj fs => some (fs.any (fun p => p.1 == needle))
  | _ => none

/-- One raw row record emitted by `extract_json_data`.  The values come
straight from the decoded JSON, so they are arbitrary `JsonValue`s (a
row label, say, need not be a string). -/
structure RawRow where
  instance_type : JsonValue
  region : JsonValue
  price : JsonValue
  heading : JsonValue

/-- The `row_labels` dict comprehension of src/parser.py line 120:
`row["id"]` raises on a missing key, a non-dict row or an unhashable id
value (`none`); a missing label defaults to the empty string. -/
def buildRowLabels : List JsonValue → List (JsonValue × JsonValue) →
    Option (List (JsonValue × JsonValue))
  | [], acc => some acc
  | rd :: rest, acc =>
    match rd with
    | .obj fs =>
      match pyIndex fs (chars "id") with
      | none => none
      | some idv =>
        if pyHashable idv then
          buildRowLabels rest
            (pyDictInsert acc idv ((assocLookup fs (chars "label")).getD (.str [])))
        else none
    | _ => none

/-- The inner row loop of `extract_json_data` (src/parser.py lines 122
to 137): resolve `idProperty` through the row-label dict, read columns
"2" and "3", and emit a record when all three values are truthy. -/
def processTableItems (heading : JsonValue)
    (rowLabels : List (JsonValue × JsonValue)) :
    List JsonValue → Option (List RawRow)
  | [] => some []
  | ti :: rest =>
    match ti with
    | .obj fs =>
      let rowId := (assocLookup fs (chars "idProperty")).getD (.str [])
      if pyHashable rowId then
        let instanceType := (pyDictLookup rowLabels rowId).getD (.str [])
        let region := (assocLookup fs (chars "2")).getD (.str [])
        let price := (assocLookup fs (chars "3")).getD (.str [])
        match processTableItems heading rowLabels rest with
        | none => none
        | some tail =>
          if pyTruthy instanceType && pyTruthy region && pyTruthy price then
            some (⟨instanceType, region, price, heading⟩ :: tail)
          else some tail
      else none
    | _ => none

/-- Processing of one decoded nested table document (src/parser.py
lines 112 to 137): heading filter, row-definition dict, row loop. -/
def processTable (tableData : JsonValue) : Option (List RawRow) :=
  match pyGetD tableData (chars "heading") (.str []) with
  | none => none
  | some heading =>
    match pyContains (chars "Pricing") heading with
    | none => none
    | some false => some []
    | some true =>
      match pyGetD tableData (chars "table") (.obj []) with
      | none => none
      | some table =>
        match pyGetD table (chars "rowDefinitions") (.arr []) with
        | none => none
        | some rowDefsV =>
          match pyGetD table (chars "items") (.arr []) with
          | none => none
          | some itemsV =>
            match pyIter rowDefsV with
            | none => none
            | some rowDefs =>
              match buildRowLabels rowDefs [] with
              | none => none
              | some rowLabels =>
                match pyIter itemsV with
                | none => none
                | some tItems => processTableItems heading rowLabels tItems

/-- Processing of one envelope item (src/parser.py lines 102 to 110):
fetch `fields.jsonData`, skip when falsy, decode it as JSON (a decode
failure skips the item, a non-string raises `TypeError` in
`json.loads`). -/
def processItems : List JsonValue → Option (List RawRow)
  | [] => some []
  | item :: rest =>
    match pyGetD item (chars "fields") (.obj []) with
    | none => none
    | some fieldsV =>
      match pyGetD fieldsV (chars "jsonData") (.str []) with
      | none => none
      | some jd =>
        if pyTruthy jd then
          match jd with
          | .str jstr =>
            match jsonParse jstr with
            | none => processItems rest
            | some tableData =>
              match processTable tableData with
              | none => none
              | some rows =>
                match processItems rest with
                | none => none
                | some tail => some (rows ++ tail)
          | _ => none
        else processItems rest

/-- Processing of one script tag content (src/parser.py lines 95 to
101): a JSON decode failure is caught and skips the script; navigating
the envelope with `.get` raises on non-dict values. -/
def processScript (content : Str) : Option (List RawRow) :=
  match jsonParse content with
  | none => some []
  | some outer =>
    match pyGetD outer (chars "data") (.obj []) with
    | none => none
    | some dataV =>
      match pyGetD dataV (chars "items") (.arr []) with
      | none => none
      | some itemsV =>
        match pyIter itemsV with
        | none => none
        | some items => processItems items

/-- All script contents, concatenated in document order. -/
def processScripts : List Str → Option (List RawRow)
  | [] => some []
  | b :: rest =>
    match processScript b with
    | none => none
    | some rows =>
      match processScripts rest with
      | none => none
      | some tail => some (rows ++ tail)

/-- The literal opening tag of the script scan regex
(src/parser.py line 90). -/
def openTag : Str := chars "<script type=\"application/json\">"

/-- The literal closing tag of the script scan regex. -/
def closeTag : Str := chars "</script>"

/-- `re.findall` for the pattern
`<script type="application/json">(.*?)</script>` with `re.DOTALL`: each
match starts at the next occurrence of the literal opening tag and its
lazy group stops at the first following closing tag; scanning resumes
after the match. -/
def scanScripts : Nat → Str → List Str
  | 0, _ => []
  | fuel + 1, s =>
    match firstMatchPos openTag s with
    | none => []
    | some i =>
      let afterOpen := s.drop (i + openTag.length)
      match firstMatchPos closeTag afterOpen with
      | none => []
      | some j =>
        afterOpen.take j ::
          scanScripts fuel (afterOpen.drop (j + closeTag.length))

/-- `extract_json_data` of src/parser.py.  `none` models an uncaught
exception (for example the `KeyError` from a row definition without an
"id" key). -/
def extract_json_data (html : Str) : Option (List RawRow) :=
  processScripts (scanScripts (html.length + 1) html)

/-- `PricingEntry` of src/models.py (rates as exact rationals, see the
header note). -/
structure PricingEntry where
  region : Str
  region_code : Str
  hourly_rate_usd : ℚ
  accelerator_hourly_rate_usd : ℚ
deriving DecidableEq

/-- `InstanceTypePricing` of src/models.py. -/
structure InstanceTypePricing where
  instance_family : Str
  accelerator_type : Str
  accelerator_count : Nat
  pricing : List PricingEntry
deriving DecidableEq

/-- `PricingMetadata` of src/models.py. -/
structure PricingMetadata where
  last_updated : Str
  source_url : Str
  version : Str
deriving DecidableEq

/-- `PricingData` of src/models.py; the `instance_types` dict is an
insertion-ordered association list whose keys are the (hashable)
decoded instance-type values. -/
structure PricingData where
  metadata : PricingMetadata
  instance_types : List (JsonValue × InstanceTypePricing)

/-- `parse_price_string` applied to the raw price value as
`parse_pricing_data` does: a truthy non-string raises `TypeError`
inside `clean_html` (`none`). -/
def priceOf : JsonValue → Option (ℚ × ℚ)
  | .str s => parse_price_string s
  | _ => none

/-- Appending a `PricingEntry` to the `instance_pricing` dict of
src/parser.py lines 204 to 206 (dict semantics: existing key keeps its
position, new key appended). -/
def appendEntry (acc : List (JsonValue × List PricingEntry)) (k : JsonValue)
    (e : PricingEntry) : List (JsonValue × List PricingEntry) :=
  match acc with
  | [] => [(k, [e])]
  | (k0, es) :: rest =>
    if pyEq k0 k then (k0, es ++ [e]) :: rest
    else (k0, es) :: appendEntry rest k e

/-- First loop of `parse_pricing_data` (src/parser.py lines 175 to
206): per-row skips, price parsing and grouping by instance type.
`none` models an uncaught exception (a truthy non-string region or
price, a `float` failure, or an unhashable instance type). -/
def buildPricing : List RawRow → List (JsonValue × List PricingEntry) →
    Option (List (JsonValue × List PricingEntry))
  | [], acc => some acc
  | row :: rest, acc =>
    if pyTruthy row.instance_type = false then buildPricing rest acc
    else
      match clean_html row.region with
      | none => none
      | some region =>
        if region.isEmpty then buildPricing rest acc
        else if pyTruthy row.price = false then buildPricing rest acc
        else
          match priceOf row.price with
          | none => none
          | some (hourly, perAcc) =>
            if hourly = 0 then buildPricing rest acc
            else
              let rcode := resolveRegionCode region
              let e : PricingEntry := ⟨region, rcode, hourly, perAcc⟩
              if pyHashable row.instance_type then
                buildPricing rest (appendEntry acc row.instance_type e)
              else none

/-- Second loop of `parse_pricing_data` (src/parser.py lines 208 to
223): metadata resolution per grouped instance type.  A surviving
non-string key reaches `_infer_instance_info`, where `.startswith`
raises `AttributeError` (`none`). -/
def buildResult : List (JsonValue × List PricingEntry) →
    Option (List (JsonValue × InstanceTypePricing))
  | [] => some []
  | (k, es) :: rest =>
    match k with
    | .str s =>
      match buildResult rest with
      | none => none
      | some tail =>
        some ((k, ⟨(resolveInstanceInfo s).1, (resolveInstanceInfo s).2.1,
          (resolveInstanceInfo s).2.2, es⟩) :: tail)
    | _ => none

/-- `parse_pricing_data` of src/parser.py. -/
def parse_pricing_data (rows : List RawRow) :
    Option (List (JsonValue × InstanceTypePricing)) := do
  let acc ← buildPricing rows []
  buildResult acc

/-- `SOURCE_URL` of src/scraper.py. -/
def SOURCE_URL : Str := chars "https://aws.amazon.com/ec2/capacityblocks/pricing/"

/-- `VERSION` of src/scraper.py. -/
def VERSION : Str := chars "1.0.0"

/-- `scrape_pricing` of src/scraper.py, with the fetched page and the
formatted wall-clock timestamp as explicit inputs (the network fetch
and the clock are the only effects).  `Except.error` carries the
message of the `ValueError` the function raises; `none` models any
other, untyped exception escaping from extraction or parsing. -/
def scrape_pricing (html ts : Str) : Option (Except Str PricingData) := do
  let json_data ← extract_json_data html
  if json_data.isEmpty then
    pure (Except.error (chars "No pricing data found in the page"))
  else do
    let instance_types ← parse_pricing_data json_data
    if instance_types.isEmpty then
      pure (Except.error (chars "Failed to parse any instance type pricing"))
    else pure (Except.ok ⟨⟨ts, SOURCE_URL, VERSION⟩, instance_types⟩)

/-- Extraction followed by parsing, the claim C3 pipeline. -/
def run_pipeline (html : Str) :
    Option (List (JsonValue × InstanceTypePricing)) := do
  let rows ← extract_json_data html
  parse_pricing_data rows

/-- JSON string-escaping for building test fixtures (quotes and
backslashes). -/
def jsonEscape (s : Str) : Str :=
  s.foldr
    (fun c acc =>
      if c = '"' then '\\' :: '"' :: acc
      else if c = '\\' then '\\' :: '\\' :: acc
      else c :: acc) []

/-- A page fragment holding one recognized script tag. -/
def mkScriptHtml (payload : Str) : Str := openTag ++ payload ++ closeTag

/-- The outer envelope `data.items[0].fields.jsonData` around an
escaped nested document. -/
def mkEnvelope (jsonData : Str) : Str :=
  chars "\x7b\"data\":\x7b\"items\":[\x7b\"fields\":\x7b\"jsonData\":\"" ++
    jsonEscape jsonData ++ chars "\"\x7d\x7d]\x7d\x7d"

/-- The nested pricing-table document of claim C3. -/
def innerC3 : Str :=
  chars "\x7b\"heading\":\"P5 Instance Pricing\",\"table\":\x7b\"rowDefinitions\":[\x7b\"id\":\"r1\",\"label\":\"p5.48xlarge\"\x7d],\"items\":[\x7b\"idProperty\":\"r1\",\"2\":\"US East (N. Virginia)\",\"3\":\"$31.464 USD ($3.933 USD)\"\x7d]\x7d\x7d"

/-- The HTML input of claim C3. -/
def htmlC3 : Str := mkScriptHtml (mkEnvelope innerC3)

/-- A pricing-table document whose single row definition lacks the
"id" key. -/
def innerBadRowDef : Str :=
  chars "\x7b\"heading\":\"Pricing\",\"table\":\x7b\"rowDefinitions\":[\x7b\x7d],\"items\":[]\x7d\x7d"

/-- HTML whose only flaw is one row definition without an "id" key
(claim C1's failing input). -/
def htmlBadRowDef : Str := mkScriptHtml (mkEnvelope innerBadRowDef)

/-- HTML whose script tag holds a JSON array instead of an object
(claim C4's failing input). -/
def htmlBadEnvelope : Str := mkScriptHtml (chars "[1]")

/-- A script tag of JSON content type carrying an extra attribute, so
its opening tag differs from the scanned literal (claim C10's
witness input). -/
def htmlExtraAttr : Str :=
  chars "<script type=\"application/json\" id=\"x\">\x7b\"data\":\x7b\"items\":[]\x7d\x7d</script>"

/-- A single well-formed raw row whose price string carries no
per-accelerator amount (claim C7's witness input). -/
def demoRow : RawRow :=
  ⟨.str (chars "p5.4xlarge"), .str (chars "US East (Ohio)"),
   .str (chars "$5 USD"), .str (chars "P5 Instance Pricing")⟩

/-- A successful association-list lookup comes from a list member. -/
theorem assocLookup_mem {β : Type} (l : List (Str × β)) (k : Str) (v : β)
    (h : assocLookup l k = some v) : (k, v) ∈ l := by
  induction l with
  | nil => simp [assocLookup] at h
  | cons p rest ih =>
    obtain ⟨k0, v0⟩ := p
    by_cases hk : k0 = k
    · subst hk
      simp [assocLookup] at h
      simp [h]
    · simp [assocLookup, hk] at h
      exact List.mem_cons_of_mem _ (ih h)

/-- A parsed amount is never negative: it is built from digit runs. -/
theorem parseAmount_nonneg (g : Str) (q : ℚ) (h : parseAmount g = some q) :
    0 ≤ q := by
  unfold parseAmount at h
  by_cases hd : (g.filter (fun c => c != ',')).any Char.isDigit
  · simp only [hd, if_true] at h
    obtain rfl := Option.some.inj h
    have h10 : (0 : ℚ) < (10 : ℚ) ^ (((g.filter (fun c => c != ',')).dropWhile (fun c => c != '.')).drop 1).length := by
      positivity
    positivity
  · simp [hd] at h

/-- `parse_price_string` never returns a negative hourly rate. -/
theorem parse_price_string_nonneg (s : Str) (h a : ℚ)
    (hp : parse_price_string s = some (h, a)) : 0 ≤ h := by
  unfold parse_price_string at hp
  cases hd : searchFrom matchDualAt (cleanHtmlStr s) with
  | some g =>
    obtain ⟨g1, g2⟩ := g
    rw [hd] at hp
    simp only [Option.bind_eq_bind, bind, Option.bind] at hp
    cases h1 : parseAmount g1 with
    | none => rw [h1] at hp; simp at hp
    | some q1 =>
      rw [h1] at hp
      cases h2 : parseAmount g2 with
      | none => rw [h2] at hp; simp at hp
      | some q2 =>
        rw [h2] at hp
        simp only [Option.some.injEq, Prod.mk.injEq] at hp
        obtain ⟨hh, _⟩ := hp
        subst hh
        exact parseAmount_nonneg g1 q1 h1
  | none =>
    rw [hd] at hp
    cases hs : searchFrom matchSingleAt (cleanHtmlStr s) with
    | some g =>
      rw [hs] at hp
      simp only [Option.bind_eq_bind, bind, Option.bind] at hp
      cases h1 : parseAmount g with
      | none => rw [h1] at hp; simp at hp
      | some q1 =>
        rw [h1] at hp
        simp only [Option.some.injEq, Prod.mk.injEq] at hp
        obtain ⟨hh, _⟩ := hp
        subst hh
        exact parseAmount_nonneg g q1 h1
    | none =>
      rw [hs] at hp
      simp only [Option.some.injEq, Prod.mk.injEq] at hp
      obtain ⟨hh, _⟩ := hp
      subst hh
      exact le_refl 0

/-- The price of a raw value is never negative. -/
theorem priceOf_nonneg (v : JsonValue) (h a : ℚ)
    (hp : priceOf v = some (h, a)) : 0 ≤ h := by
  cases v <;> simp [priceOf] at hp
  case str s => exact parse_price_string_nonneg s h a hp

set_option maxRecDepth 100000

/-- Claim C3: for the HTML input carrying one application/json script
tag whose nested jsonData has heading "P5 Instance Pricing", one row
definition mapping "r1" to "p5.48xlarge" and one item with region
"US East (N. Virginia)" and price "$31.464 USD ($3.933 USD)", running
extraction followed by parse_pricing_data yields exactly one entry,
keyed "p5.48xlarge", with family "P5", accelerator "H100", count 8 and
a single pricing entry with region code "us-east-1", hourly rate
31.464 and accelerator hourly rate 3.933. -/
theorem claim_C3_end_to_end :
    run_pipeline htmlC3 =
      some [(JsonValue.str (chars "p5.48xlarge"),
        ⟨chars "P5", chars "H100", 8,
         [⟨chars "US East (N. Virginia)", chars "us-east-1",
           (31464 : ℚ) / 1000, (3933 : ℚ) / 1000⟩]⟩)] := by
  with_unfolding_all rfl

/-- Claim C1 (failing-input evaluation): on HTML whose only flaw is one
row definition object without an "id" key, extraction does not skip the
row definition but raises (`row["id"]` is a plain subscript, so the
`KeyError` escapes the function, which never reaches its return). -/
theorem claim_C1_rowdef_missing_id_crashes :
    extract_json_data htmlBadRowDef = none := by
  with_unfolding_all rfl

/-- Claim C2 (failing-input evaluation): on the input ", USD" the
single-price regex matches with the amount group ",", and
`float(",".replace(",", ""))` raises `ValueError`, so
parse_price_string raises instead of returning (0.0, 0.0). -/
theorem claim_C2_comma_amount_crashes :
    parse_price_string (chars ", USD") = none := by
  with_unfolding_all rfl

/-- Claim C4 (failing-input evaluation): on HTML whose script tag holds
the JSON array [1], the scrape neither returns a PricingData nor raises
one of the two typed errors; the `AttributeError` from
`outer_data.get` on a list escapes untyped. -/
theorem claim_C4_array_envelope_crashes :
    scrape_pricing htmlBadEnvelope (chars "2026-10-12T00:00:00Z") = none := by
  with_unfolding_all rfl

/-- Claim C9: input strings in which the currency amount is not leading
still parse to that amount as a nonzero hourly rate, because both price
patterns are applied by unanchored substring search: text may precede
the amount, and an amount appearing only inside parentheses is found as
well. -/
theorem claim_C9_unanchored_search :
    parse_price_string (chars "rate: $3.933 USD") = some ((3933 : ℚ) / 1000, 0) ∧
    parse_price_string (chars "($3.933 USD)") = some ((3933 : ℚ) / 1000, 0) :=
  ⟨by with_unfolding_all rfl, by with_unfolding_all rfl⟩

/-- Two prefixes of the same string are comparable. -/
theorem prefix_comparable : ∀ (s p q : Str), lstartsWith p s = true →
    lstartsWith q s = true → lstartsWith p q = true ∨ lstartsWith q p = true := by
  intro s
  induction s with
  | nil =>
    intro p q hp hq
    cases p with
    | nil => left; rfl
    | cons a ps => simp [lstartsWith] at hp
  | cons c s ih =>
    intro p q hp hq
    cases p with
    | nil => left; rfl
    | cons a ps =>
      cases q with
      | nil => right; rfl
      | cons b qs =>
        simp [lstartsWith] at hp hq
        obtain ⟨hac, hps⟩ := hp
        obtain ⟨hbc, hqs⟩ := hq
        subst hac; subst hbc
        rcases ih ps qs hps hqs with h | h
        · left; simp [lstartsWith, h]
        · right; simp [lstartsWith, h]

/-- Prefixes compose transitively. -/
theorem prefix_trans : ∀ (p q s : Str), lstartsWith p q = true →
    lstartsWith q s = true → lstartsWith p s = true := by
  intro p
  induction p with
  | nil => intro q s h1 h2; rfl
  | cons a ps ih =>
    intro q s h1 h2
    cases q with
    | nil => simp [lstartsWith] at h1
    | cons b qs =>
      cases s with
      | nil => simp [lstartsWith] at h2
      | cons c ss =>
        simp [lstartsWith] at h1 h2 ⊢
        obtain ⟨hab, hpq⟩ := h1
        obtain ⟨hbc, hqs⟩ := h2
        subst hab; subst hbc
        exact ⟨rfl, ih qs ss hpq hqs⟩

/-- A string with prefix `p` cannot also have a prefix `q` that is
incomparable with `p`. -/
theorem prefix_excl (p q s : Str) (h : lstartsWith p s = true)
    (h1 : lstartsWith q p = false) (h2 : lstartsWith p q = false) :
    lstartsWith q s = false := by
  cases hc : lstartsWith q s with
  | false => rfl
  | true =>
    rcases prefix_comparable s p q h hc with hx | hx
    · rw [hx] at h2; exact absurd h2 (by simp)
    · rw [hx] at h1; exact absurd h1 (by simp)

/-- Some prefix rule of `_infer_instance_info` applies. -/
def inferRuleApplies (s : Str) : Bool :=
  lstartsWith (chars "p5en") s || lstartsWith (chars "p5e") s ||
  lstartsWith (chars "p5") s || lstartsWith (chars "p6-b300") s ||
  lstartsWith (chars "p6-b200") s || lstartsWith (chars "u-p6e") s ||
  lstartsWith (chars "p4de") s || lstartsWith (chars "p4d") s ||
  lstartsWith (chars "trn2") s || lstartsWith (chars "trn1") s

/-- Claim C5: metadata resolution is total and never fails; the
exact-match table is consulted first (first conjunct); identifiers
starting with "p5en" resolve to family "P5en" and never "P5", "p5e"
identifiers outside "p5en" resolve to "P5e", bare "p5" identifiers
outside "p5e" resolve to "P5", and "p6-b300"/"p6-b200" identifiers
resolve to their own families rather than any bare "p6" rule
(middle conjuncts); when no exact entry and no prefix rule applies the
result is exactly ("Unknown", "Unknown", 0) (last conjunct). -/
theorem claim_C5_metadata_resolution :
    (∀ s i, assocLookup INSTANCE_TYPE_INFO s = some i →
      resolveInstanceInfo s = (i.family, i.accelerator, i.count)) ∧
    (∀ s, lstartsWith (chars "p5en") s = true →
      (resolveInstanceInfo s).1 = chars "P5en") ∧
    (∀ s, lstartsWith (chars "p5e") s = true → lstartsWith (chars "p5en") s = false →
      (resolveInstanceInfo s).1 = chars "P5e") ∧
    (∀ s, lstartsWith (chars "p5") s = true → lstartsWith (chars "p5e") s = false →
      (resolveInstanceInfo s).1 = chars "P5") ∧
    (∀ s, lstartsWith (chars "p6-b300") s = true →
      (resolveInstanceInfo s).1 = chars "P6-B300") ∧
    (∀ s, lstartsWith (chars "p6-b200") s = true →
      (resolveInstanceInfo s).1 = chars "P6-B200") ∧
    (∀ s, assocLookup INSTANCE_TYPE_INFO s = none → inferRuleApplies s = false →
      resolveInstanceInfo s = (chars "Unknown", chars "Unknown", 0)) := by
  refine ⟨?_, ?_, ?_, ?_, ?_, ?_, ?_⟩
  · intro s i h
    have hmem := assocLookup_mem _ _ _ h
    have hfam : ¬ i.family = chars "Unknown" :=
      (show ∀ p ∈ INSTANCE_TYPE_INFO, ¬ p.2.family = chars "Unknown" by decide) _ hmem
    simp [resolveInstanceInfo, h, hfam]
  · intro s h
    cases hl : assocLookup INSTANCE_TYPE_INFO s with
    | some i =>
      have hmem := assocLookup_mem _ _ _ hl
      have hfam := (show ∀ p ∈ INSTANCE_TYPE_INFO,
        lstartsWith (chars "p5en") p.1 = true →
          p.2.family = chars "P5en" ∧ ¬ p.2.family = chars "Unknown" by decide) _ hmem h
      have hf1 : i.family = chars "P5en" := hfam.1
      have hf2 : ¬ i.family = chars "Unknown" := hfam.2
      simp +decide [resolveInstanceInfo, hl, hf1, hf2]
    | none => simp [resolveInstanceInfo, hl, _infer_instance_info, h]
  · intro s h hn
    cases hl : assocLookup INSTANCE_TYPE_INFO s with
    | some i =>
      have hmem := assocLookup_mem _ _ _ hl
      have hfam := (show ∀ p ∈ INSTANCE_TYPE_INFO,
        lstartsWith (chars "p5e") p.1 = true → lstartsWith (chars "p5en") p.1 = false →
          p.2.family = chars "P5e" ∧ ¬ p.2.family = chars "Unknown" by decide) _ hmem h hn
      have hf1 : i.family = chars "P5e" := hfam.1
      have hf2 : ¬ i.family = chars "Unknown" := hfam.2
      simp +decide [resolveInstanceInfo, hl, hf1, hf2]
    | none => simp [resolveInstanceInfo, hl, _infer_instance_info, h, hn]
  · intro s h hn
    have hn2 : lstartsWith (chars "p5en") s = false := by
      cases hc : lstartsWith (chars "p5en") s with
      | false => rfl
      | true =>
        have h5e : lstartsWith (chars "p5e") s = true :=
          prefix_trans _ _ _ (by decide) hc
        rw [h5e] at hn
        exact absurd hn (by simp)
    cases hl : assocLookup INSTANCE_TYPE_INFO s with
    | some i =>
      have hmem := assocLookup_mem _ _ _ hl
      have hfam := (show ∀ p ∈ INSTANCE_TYPE_INFO,
        lstartsWith (chars "p5") p.1 = true → lstartsWith (chars "p5e") p.1 = false →
          p.2.family = chars "P5" ∧ ¬ p.2.family = chars "Unknown" by decide) _ hmem h hn
      have hf1 : i.family = chars "P5" := hfam.1
      have hf2 : ¬ i.family = chars "Unknown" := hfam.2
      simp +decide [resolveInstanceInfo, hl, hf1, hf2]
    | none => simp [resolveInstanceInfo, hl, _infer_instance_info, h, hn, hn2]
  · intro s h
    have h5en := prefix_excl _ (chars "p5en") _ h (by decide) (by decide)
    have h5e := prefix_excl _ (chars "p5e") _ h (by decide) (by decide)
    have h5 := prefix_excl _ (chars "p5") _ h (by decide) (by decide)
    cases hl : assocLookup INSTANCE_TYPE_INFO s with
    | some i =>
      have hmem := assocLookup_mem _ _ _ hl
      have hfam := (show ∀ p ∈ INSTANCE_TYPE_INFO,
        lstartsWith (chars "p6-b300") p.1 = true →
          p.2.family = chars "P6-B300" ∧ ¬ p.2.family = chars "Unknown" by decide) _ hmem h
      have hf1 : i.family = chars "P6-B300" := hfam.1
      have hf2 : ¬ i.family = chars "Unknown" := hfam.2
      simp +decide [resolveInstanceInfo, hl, hf1, hf2]
    | none => simp [resolveInstanceInfo, hl, _infer_instance_info, h, h5en, h5e, h5]
  · intro s h
    have h5en := prefix_excl _ (chars "p5en") _ h (by decide) (by decide)
    have h5e := prefix_excl _ (chars "p5e") _ h (by decide) (by decide)
    have h5 := prefix_excl _ (chars "p5") _ h (by decide) (by decide)
    have h300 := prefix_excl _ (chars "p6-b300") _ h (by decide) (by decide)
    cases hl : assocLookup INSTANCE_TYPE_INFO s with
    | some i =>
      have hmem := assocLookup_mem _ _ _ hl
      have hfam := (show ∀ p ∈ INSTANCE_TYPE_INFO,
        lstartsWith (chars "p6-b200") p.1 = true →
          p.2.family = chars "P6-B200" ∧ ¬ p.2.family = chars "Unknown" by decide) _ hmem h
      have hf1 : i.family = chars "P6-B200" := hfam.1
      have hf2 : ¬ i.family = chars "Unknown" := hfam.2
      simp +decide [resolveInstanceInfo, hl, hf1, hf2]
    | none => simp [resolveInstanceInfo, hl, _infer_instance_info, h, h5en, h5e, h5, h300]
  · intro s hl hr
    simp only [inferRuleApplies, Bool.or_eq_false_iff] at hr
    obtain ⟨⟨⟨⟨⟨⟨⟨⟨⟨h1, h2⟩, h3⟩, h4⟩, h5⟩, h6⟩, h7⟩, h8⟩, h9⟩, h10⟩ := hr
    simp [resolveInstanceInfo, hl, _infer_instance_info,
      h1, h2, h3, h4, h5, h6, h7, h8, h9, h10]

/-- Claim C5 witness: the theorem applied at concrete identifiers
covering an inferred "p5en" name, a no-rule name and an exact-table
name. -/
theorem claim_C5_witness :
    (resolveInstanceInfo (chars "p5en.96xlarge")).1 = chars "P5en" ∧
    resolveInstanceInfo (chars "zzz") = (chars "Unknown", chars "Unknown", 0) ∧
    resolveInstanceInfo (chars "p5.48xlarge") =
      ((⟨chars "P5", chars "H100", 8⟩ : InstanceInfo).family,
       (⟨chars "P5", chars "H100", 8⟩ : InstanceInfo).accelerator,
       (⟨chars "P5", chars "H100", 8⟩ : InstanceInfo).count) :=
  ⟨claim_C5_metadata_resolution.2.1 _ (by decide),
   claim_C5_metadata_resolution.2.2.2.2.2.2 _ (by decide) (by decide),
   claim_C5_metadata_resolution.1 _ _ (by decide)⟩

/-- Claim C6: region-code resolution is a pure total function: an
exact table match returns the table code, a miss retries the lookup on
the whitespace-stripped name, and a second miss returns exactly the
sentinel "unknown"; being a Lean function it raises nothing and is
deterministic. -/
theorem claim_C6_region_resolution :
    (∀ r c, assocLookup REGION_NAME_TO_CODE r = some c → resolveRegionCode r = c) ∧
    (∀ r c, assocLookup REGION_NAME_TO_CODE r = none →
      assocLookup REGION_NAME_TO_CODE (pyStrip r) = some c → resolveRegionCode r = c) ∧
    (∀ r, assocLookup REGION_NAME_TO_CODE r = none →
      assocLookup REGION_NAME_TO_CODE (pyStrip r) = none →
      resolveRegionCode r = chars "unknown") := by
  refine ⟨?_, ?_, ?_⟩
  · intro r c h
    have hmem := assocLookup_mem _ _ _ h
    have hne : ¬ c = ([] : Str) :=
      (show ∀ p ∈ REGION_NAME_TO_CODE, ¬ p.2 = ([] : Str) by decide) _ hmem
    simp [resolveRegionCode, h, hne]
  · intro r c h hs
    simp [resolveRegionCode, h, hs]
  · intro r h hs
    simp [resolveRegionCode, h, hs]

/-- Claim C6 witness: the theorem applied at an exact name, a
whitespace-padded name and an unknown name. -/
theorem claim_C6_witness :
    resolveRegionCode (chars "US East (N. Virginia)") = chars "us-east-1" ∧
    resolveRegionCode (chars "  US East (Ohio)  ") = chars "us-east-2" ∧
    resolveRegionCode (chars "Atlantis (Lost City)") = chars "unknown" :=
  ⟨claim_C6_region_resolution.1 _ _ (by decide),
   claim_C6_region_resolution.2.1 _ _ (by decide) (by decide),
   claim_C6_region_resolution.2.2 _ (by decide) (by decide)⟩

/-- Every grouped pricing entry has a strictly positive hourly
rate. -/
def entriesPos (acc : List (JsonValue × List PricingEntry)) : Prop :=
  ∀ kv ∈ acc, ∀ e ∈ kv.2, 0 < e.hourly_rate_usd

/-- `appendEntry` preserves positivity of grouped entries. -/
theorem appendEntry_pos (acc : List (JsonValue × List PricingEntry))
    (k : JsonValue) (e : PricingEntry) (hacc : entriesPos acc)
    (he : 0 < e.hourly_rate_usd) : entriesPos (appendEntry acc k e) := by
  induction acc with
  | nil =>
    intro kv hkv e2 he2
    simp [appendEntry] at hkv
    subst hkv
    simp at he2
    subst he2
    exact he
  | cons p rest ih =>
    obtain ⟨k0, es⟩ := p
    have hrest : entriesPos rest := fun kv hkv => hacc kv (List.mem_cons_of_mem _ hkv)
    intro kv hkv e2 he2
    simp only [appendEntry] at hkv
    by_cases hk : pyEq k0 k = true
    · rw [if_pos hk] at hkv
      rcases List.mem_cons.mp hkv with hh | ht
      · subst hh
        simp only at he2
        rcases List.mem_append.mp he2 with h1 | h2
        · exact hacc (k0, es) (List.mem_cons_self _ _) e2 h1
        · simp at h2; subst h2; exact he
      · exact hrest kv ht e2 he2
    · rw [if_neg hk] at hkv
      rcases List.mem_cons.mp hkv with hh | ht
      · subst hh
        exact hacc (k0, es) (List.mem_cons_self _ _) e2 he2
      · exact ih hrest kv ht e2 he2

/-- The grouping loop only ever adds entries with a strictly positive
hourly rate: a parsed rate is nonnegative and the zero rate is
skipped. -/
theorem buildPricing_pos : ∀ (rows : List RawRow)
    (acc res : List (JsonValue × List PricingEntry)),
    entriesPos acc → buildPricing rows acc = some res → entriesPos res := by
  intro rows
  induction rows with
  | nil =>
    intro acc res hacc h
    simp [buildPricing] at h
    subst h
    exact hacc
  | cons row rest ih =>
    intro acc res hacc h
    simp only [buildPricing] at h
    split at h
    · exact ih _ _ hacc h
    · split at h
      · exact absurd h (by simp)
      · rename_i region hregion
        split at h
        · exact ih _ _ hacc h
        · split at h
          · exact ih _ _ hacc h
          · split at h
            · exact absurd h (by simp)
            · rename_i pr hpr
              obtain ⟨hourly, perAcc⟩ := pr
              split at h
              · exact ih _ _ hacc h
              · rename_i hz
                split at h
                · refine ih _ _ ?_ h
                  refine appendEntry_pos _ _ _ hacc ?_
                  have h0 := priceOf_nonneg _ _ _ hpr
                  exact lt_of_le_of_ne h0 (fun heq => hz heq.symm)
                · exact absurd h (by simp)

/-- The assembly loop passes each group through unchanged, so
positivity carries over to the final map. -/
theorem buildResult_pos : ∀ (acc : List (JsonValue × List PricingEntry))
    (res : List (JsonValue × InstanceTypePricing)),
    buildResult acc = some res → entriesPos acc →
    ∀ kv ∈ res, ∀ e ∈ kv.2.pricing, 0 < e.hourly_rate_usd := by
  intro acc
  induction acc with
  | nil =>
    intro res h hacc kv hkv e he
    simp [buildResult] at h
    subst h
    simp at hkv
  | cons p rest ih =>
    obtain ⟨k, es⟩ := p
    intro res h hacc kv hkv e he
    have hrest : entriesPos rest := fun kv hkv => hacc kv (List.mem_cons_of_mem _ hkv)
    cases k with
    | str s =>
      simp only [buildResult] at h
      cases htail : buildResult rest with
      | none => rw [htail] at h; exact absurd h (by simp)
      | some tail =>
        rw [htail] at h
        simp only [Option.some.injEq] at h
        subst h
        rcases List.mem_cons.mp hkv with hh | ht
        · subst hh
          simp only at he
          exact hacc (JsonValue.str s, es) (List.mem_cons_self _ _) e he
        · exact ih _ htail hrest kv ht e he
    | null => simp [buildResult] at h
    | bool b => simp [buildResult] at h
    | num q => simp [buildResult] at h
    | arr l => simp [buildResult] at h
    | obj l => simp [buildResult] at h

/-- Claim C7: for every input row list, every PricingEntry in the
output of parse_pricing_data has a strictly positive hourly rate (rows
whose parsed hourly rate is exactly 0.0 are skipped), while an entry
whose accelerator rate is 0.0 is kept, as the concrete single-price row
in the second conjunct shows. -/
theorem claim_C7_zero_rate_asymmetry :
    (∀ (rows : List RawRow) res, parse_pricing_data rows = some res →
      ∀ kv ∈ res, ∀ e ∈ kv.2.pricing, 0 < e.hourly_rate_usd) ∧
    parse_pricing_data [demoRow] =
      some [(JsonValue.str (chars "p5.4xlarge"),
        ⟨chars "P5", chars "H100", 1,
         [⟨chars "US East (Ohio)", chars "us-east-2", 5, 0⟩]⟩)] := by
  constructor
  · intro rows res h kv hkv e he
    obtain ⟨acc, hacc, hres⟩ : ∃ acc, buildPricing rows [] = some acc ∧
        buildResult acc = some res := by
      cases hb : buildPricing rows [] with
      | none => rw [parse_pricing_data, hb] at h; exact absurd h (by simp)
      | some acc =>
        refine ⟨acc, rfl, ?_⟩
        rw [parse_pricing_data, hb] at h
        simpa using h
    have hpos := buildPricing_pos rows [] acc (by intro kv h; simp at h) hacc
    exact buildResult_pos acc res hres hpos kv hkv e he
  · with_unfolding_all rfl

/-- Claim C7 witness: the invariant applied to the concrete row list
of the second conjunct, whose one surviving entry has accelerator rate
zero and positive hourly rate. -/
theorem claim_C7_witness :
    0 < (⟨chars "US East (Ohio)", chars "us-east-2", 5, 0⟩ : PricingEntry).hourly_rate_usd :=
  claim_C7_zero_rate_asymmetry.1 [demoRow] _ claim_C7_zero_rate_asymmetry.2
    _ (List.mem_singleton.mpr rfl) _ (List.mem_singleton.mpr rfl)

/-- Every row the table-item loop emits carries the heading it was
given. -/
theorem processTableItems_heading : ∀ (tis : List JsonValue) (heading : JsonValue)
    (labels : List (JsonValue × JsonValue)) (rows : List RawRow),
    processTableItems heading labels tis = some rows →
    ∀ r ∈ rows, r.heading = heading := by
  intro tis
  induction tis with
  | nil =>
    intro heading labels rows h r hr
    simp [processTableItems] at h
    subst h
    simp at hr
  | cons ti rest ih =>
    intro heading labels rows h r hr
    cases ti with
    | obj fs =>
      simp only [processTableItems] at h
      split at h
      · split at h
        · exact absurd h (by simp)
        · rename_i tail htail
          split at h
          · simp only [Option.some.injEq] at h
            subst h
            rcases List.mem_cons.mp hr with hh | ht
            · subst hh; rfl
            · exact ih heading labels tail htail r ht
          · simp only [Option.some.injEq] at h
            subst h
            exact ih heading labels tail htail r hr
      · exact absurd h (by simp)
    | null => simp [processTableItems] at h
    | bool b => simp [processTableItems] at h
    | num q => simp [processTableItems] at h
    | str s => simp [processTableItems] at h
    | arr l => simp [processTableItems] at h

/-- Every row emitted for a table document has a heading that passed
the "Pricing" membership check. -/
theorem processTable_heading (td : JsonValue) (rows : List RawRow)
    (h : processTable td = some rows) :
    ∀ r ∈ rows, pyContains (chars "Pricing") r.heading = some true := by
  intro r hr
  unfold processTable at h
  split at h
  · exact absurd h (by simp)
  · rename_i heading hheading
    split at h
    · exact absurd h (by simp)
    · -- some false: rows = []
      simp only [Option.some.injEq] at h
      subst h
      simp at hr
    · rename_i hc
      split at h
      · exact absurd h (by simp)
      · split at h
        · exact absurd h (by simp)
        · split at h
          · exact absurd h (by simp)
          · split at h
            · exact absurd h (by simp)
            · split at h
              · exact absurd h (by simp)
              · split at h
                · exact absurd h (by simp)
                · rw [processTableItems_heading _ _ _ _ h r hr]
                  exact hc

/-- The per-item loop only passes through rows from accepted
tables. -/
theorem processItems_heading : ∀ (items : List JsonValue) (rows : List RawRow),
    processItems items = some rows →
    ∀ r ∈ rows, pyContains (chars "Pricing") r.heading = some true := by
  intro items
  induction items with
  | nil =>
    intro rows h r hr
    simp [processItems] at h
    subst h
    simp at hr
  | cons item rest ih =>
    intro rows h r hr
    simp only [processItems] at h
    split at h
    · exact absurd h (by simp)
    · split at h
      · exact absurd h (by simp)
      · split at h
        · split at h
          · rename_i jstr hjstr
            split at h
            · exact ih rows h r hr
            · split at h
              · exact absurd h (by simp)
              · rename_i trows htrows
                split at h
                · exact absurd h (by simp)
                · rename_i tail htail
                  simp only [Option.some.injEq] at h
                  subst h
                  rcases List.mem_append.mp hr with hl | hrr
                  · exact processTable_heading _ _ htrows r hl
                  · exact ih tail htail r hrr
          · exact absurd h (by simp)
        · exact ih rows h r hr

/-- The per-script processing only passes through rows from accepted
tables. -/
theorem processScript_heading (b : Str) (rows : List RawRow)
    (h : processScript b = some rows) :
    ∀ r ∈ rows, pyContains (chars "Pricing") r.heading = some true := by
  intro r hr
  unfold processScript at h
  split at h
  · simp only [Option.some.injEq] at h
    subst h
    simp at hr
  · split at h
    · exact absurd h (by simp)
    · split at h
      · exact absurd h (by simp)
      · split at h
        · exact absurd h (by simp)
        · exact processItems_heading _ _ h r hr

/-- Concatenating scripts preserves the heading property. -/
theorem processScripts_heading : ∀ (bs : List Str) (rows : List RawRow),
    processScripts bs = some rows →
    ∀ r ∈ rows, pyContains (chars "Pricing") r.heading = some true := by
  intro bs
  induction bs with
  | nil =>
    intro rows h r hr
    simp [processScripts] at h
    subst h
    simp at hr
  | cons b rest ih =>
    intro rows h r hr
    simp only [processScripts] at h
    split at h
    · exact absurd h (by simp)
    · rename_i brows hbrows
      split at h
      · exact absurd h (by simp)
      · rename_i tail htail
        simp only [Option.some.injEq] at h
        subst h
        rcases List.mem_append.mp hr with hl | hrr
        · exact processScript_heading _ _ hbrows r hl
        · exact ih tail htail r hrr

/-- Claim C8: for every HTML input, every row in the extractor output
comes from a nested document whose heading passed the "Pricing"
membership test; a decoded table document whose heading lacks the
substring "Pricing" contributes no rows at all. -/
theorem claim_C8_heading_filter : ∀ (html : Str) (rows : List RawRow),
    extract_json_data html = some rows →
    ∀ r ∈ rows, pyContains (chars "Pricing") r.heading = some true := by
  intro html rows h
  exact processScripts_heading _ _ h

/-- The single raw row the claim C3 input extracts to. -/
def rawRowC3 : RawRow :=
  ⟨.str (chars "p5.48xlarge"), .str (chars "US East (N. Virginia)"),
   .str (chars "$31.464 USD ($3.933 USD)"), .str (chars "P5 Instance Pricing")⟩

/-- Claim C8 witness: the theorem applied to the concrete extraction
on the claim C3 page, whose one row carries the accepted heading. -/
theorem claim_C8_witness :
    pyContains (chars "Pricing") rawRowC3.heading = some true :=
  claim_C8_heading_filter htmlC3 [rawRowC3] (by with_unfolding_all rfl)
    rawRowC3 (List.mem_singleton.mpr rfl)

/-- Claim C10: the extractor scans only script tags whose opening tag
is written exactly as the 32-character literal of `openTag`; HTML in
which that literal does not occur as a substring (for example a JSON
script tag with extra attributes, another attribute order, other
quoting or extra whitespace) contributes no rows. -/
theorem claim_C10_exact_open_tag : ∀ (html : Str),
    strContains html openTag = false → extract_json_data html = some [] := by
  intro html h
  have hpos : firstMatchPos openTag html = none := by
    unfold strContains at h
    cases hc : firstMatchPos openTag html with
    | none => rfl
    | some i => rw [hc] at h; simp at h
  unfold extract_json_data
  cases hl : html.length with
  | zero => simp [scanScripts, hpos, processScripts]
  | succ n => simp [scanScripts, hpos, processScripts]

/-- Claim C10 witness: the theorem applied to a page whose script tag
carries an extra attribute and so misses the literal. -/
theorem claim_C10_witness :
    strContains htmlExtraAttr openTag = false ∧
    extract_json_data htmlExtraAttr = some [] :=
  ⟨by decide, claim_C10_exact_open_tag htmlExtraAttr (by decide)⟩

/-- A pricing table whose one row carries the unparseable price
"N/A". -/
def innerNoPrice : Str :=
  chars "\x7b\"heading\":\"P5 Instance Pricing\",\"table\":\x7b\"rowDefinitions\":[\x7b\"id\":\"r1\",\"label\":\"p5.48xlarge\"\x7d],\"items\":[\x7b\"idProperty\":\"r1\",\"2\":\"US East (N. Virginia)\",\"3\":\"N/A\"\x7d]\x7d\x7d"

/-- HTML that extracts one row whose price parses to a zero hourly
rate. -/
def htmlNoPrice : Str := mkScriptHtml (mkEnvelope innerNoPrice)

/-- A pricing table whose one row definition lacks the "label" key
(the id is present). -/
def innerNoLabel : Str :=
  chars "\x7b\"heading\":\"P5 Instance Pricing\",\"table\":\x7b\"rowDefinitions\":[\x7b\"id\":\"r1\"\x7d],\"items\":[\x7b\"idProperty\":\"r1\",\"2\":\"US East (N. Virginia)\",\"3\":\"$5 USD\"\x7d]\x7d\x7d"

/-- HTML whose row definition misses only its label. -/
def htmlNoLabel : Str := mkScriptHtml (mkEnvelope innerNoLabel)

/-- Supporting fact for claim C4: with no recognized script tags the
scrape raises exactly the typed no-data error. -/
theorem scrape_no_data_error :
    scrape_pricing (chars "<p>no scripts here</p>") (chars "t") =
      some (Except.error (chars "No pricing data found in the page")) := by
  with_unfolding_all rfl

/-- Supporting fact for claim C4: when a row is extracted but its
price is unparseable, the row is dropped for its zero hourly rate and
the scrape raises exactly the typed no-parsed-data error. -/
theorem scrape_no_parsed_data_error :
    extract_json_data htmlNoPrice = some [⟨.str (chars "p5.48xlarge"),
      .str (chars "US East (N. Virginia)"), .str (chars "N/A"),
      .str (chars "P5 Instance Pricing")⟩] ∧
    scrape_pricing htmlNoPrice (chars "t") =
      some (Except.error (chars "Failed to parse any instance type pricing")) :=
  ⟨by with_unfolding_all rfl, by with_unfolding_all rfl⟩

/-- Supporting fact for claim C4: the two typed error messages are
distinct. -/
theorem scrape_messages_distinct :
    chars "No pricing data found in the page" ≠
      chars "Failed to parse any instance type pricing" := by decide

/-- Supporting fact for claim C1: a script whose content fails JSON
decoding is silently skipped and later scripts still contribute their
rows. -/
theorem extract_skips_undecodable_script :
    extract_json_data (mkScriptHtml (chars "\x7bnot json") ++ htmlC3) =
      some [rawRowC3] := by
  with_unfolding_all rfl

/-- Supporting fact for claim C1: a row definition missing only its
"label" key is tolerated (the label defaults to the empty string and
the affected row is dropped by the truthiness check), in contrast to a
missing "id" key, which raises. -/
theorem extract_skips_missing_label :
    extract_json_data htmlNoLabel = some [] := by
  with_unfolding_all rfl
